import Mathlib

/-!
Verification of the live time-progress bot (`bot.py`).

The development shallowly embeds the pure computations and the
update-loop control flow of the source file.  Clock reads
(`get_ist_now()`) are made explicit: every source function that reads
the wall clock takes the read value as an argument, and the message
renderer takes the stream of successive reads, one per call site, in
source order.  Real-valued arithmetic (`timedelta.total_seconds()`,
float division) is modelled over `ℚ`; Python integers are `ℕ`/`ℤ`.
-/

namespace Bot

/-- An IST wall-clock instant, to whole-second precision (the
fields `datetime.now(IST)` exposes that the program reads). -/
structure DateTime where
  year : ℕ
  month : ℕ
  day : ℕ
  hour : ℕ
  minute : ℕ
  second : ℕ
  deriving DecidableEq, Repr

/-- Gregorian leap-year test, as `calendar`/`datetime` implement it. -/
def isLeap (y : ℕ) : Bool := (y % 4 == 0 && y % 100 != 0) || (y % 400 == 0)

/-- Length of month `m` of year `y`. -/
def daysInMonth (y m : ℕ) : ℕ :=
  if m = 2 then (if isLeap y then 29 else 28)
  else if m = 4 ∨ m = 6 ∨ m = 9 ∨ m = 11 then 30
  else 31

/-- Number of leap years in `1..n`. -/
def leapCount (n : ℕ) : ℕ := n / 4 + n / 400 - n / 100

/-- Days of year `y` strictly before month `m` (months `1..12`). -/
def daysBeforeMonth (y m : ℕ) : ℕ :=
  let L : ℕ := if isLeap y then 1 else 0
  match m with
  | 1 => 0 | 2 => 31 | 3 => 59 + L | 4 => 90 + L | 5 => 120 + L | 6 => 151 + L
  | 7 => 181 + L | 8 => 212 + L | 9 => 243 + L | 10 => 273 + L | 11 => 304 + L
  | 12 => 334 + L | _ => 0

/-- Days from the epoch 0001-01-01 to the civil date `(y, m, d)`. -/
def daysFromCivil (y m d : ℕ) : ℕ :=
  365 * (y - 1) + leapCount (y - 1) + daysBeforeMonth y m + (d - 1)

/-- Seconds from the epoch to an instant; differences of this model
Python's `timedelta.total_seconds()` between two IST-aware datetimes. -/
def toSeconds (t : DateTime) : ℕ :=
  86400 * daysFromCivil t.year t.month t.day +
    3600 * t.hour + 60 * t.minute + t.second

/-- The instants `datetime.now(IST)` can actually return. -/
def DateTime.Valid (t : DateTime) : Prop :=
  1 ≤ t.year ∧ 1 ≤ t.month ∧ t.month ≤ 12 ∧ 1 ≤ t.day ∧
  t.day ≤ daysInMonth t.year t.month ∧ t.hour < 24 ∧ t.minute < 60 ∧ t.second < 60

instance (t : DateTime) : Decidable t.Valid := by
  unfold DateTime.Valid; infer_instance

/-- `get_year_progress` from the source, with the `get_ist_now()` read
passed in explicitly. -/
def get_year_progress (now : DateTime) : ℚ :=
  let year_start : DateTime := ⟨now.year, 1, 1, 0, 0, 0⟩
  let year_end : DateTime := ⟨now.year + 1, 1, 1, 0, 0, 0⟩
  let total_seconds : ℚ := (toSeconds year_end : ℚ) - (toSeconds year_start : ℚ)
  let elapsed_seconds : ℚ := (toSeconds now : ℚ) - (toSeconds year_start : ℚ)
  min (elapsed_seconds / total_seconds * 100) 100

/-- `get_day_progress` from the source (`day_end = day_start + timedelta(days=1)`). -/
def get_day_progress (now : DateTime) : ℚ :=
  let day_start : DateTime := ⟨now.year, now.month, now.day, 0, 0, 0⟩
  let total_seconds : ℚ := ((toSeconds day_start + 86400 : ℕ) : ℚ) - (toSeconds day_start : ℚ)
  let elapsed_seconds : ℚ := (toSeconds now : ℚ) - (toSeconds day_start : ℚ)
  min (elapsed_seconds / total_seconds * 100) 100

/-- `get_second_progress` from the source: `(seconds / 59) * 100`, clamped. -/
def get_second_progress (now : DateTime) : ℚ :=
  min ((now.second : ℚ) / 59 * 100) 100

lemma toSeconds_year_start_le (t : DateTime) :
    toSeconds ⟨t.year, 1, 1, 0, 0, 0⟩ ≤ toSeconds t := by
  simp only [toSeconds, daysFromCivil, daysBeforeMonth]
  omega

lemma leapCount_le_succ (n : ℕ) : leapCount n ≤ leapCount (n + 1) := by
  unfold leapCount; omega

lemma toSeconds_year_lt (t : DateTime) (hy : 1 ≤ t.year) :
    toSeconds ⟨t.year, 1, 1, 0, 0, 0⟩ < toSeconds ⟨t.year + 1, 1, 1, 0, 0, 0⟩ := by
  have h1 := leapCount_le_succ (t.year - 1)
  have h2 : t.year - 1 + 1 = t.year := by omega
  rw [h2] at h1
  simp only [toSeconds, daysFromCivil, daysBeforeMonth]
  have h3 : t.year + 1 - 1 = t.year := by omega
  rw [h3]
  omega

lemma toSeconds_day_start_le (t : DateTime) :
    toSeconds ⟨t.year, t.month, t.day, 0, 0, 0⟩ ≤ toSeconds t := by
  simp only [toSeconds]
  omega

/-- C6: for every second-of-minute `s ≤ 59`, the sub-minute tick equals
`(s / 59) * 100` clamped to `100`; the clamp never bites, and the value is
exactly `100` at `s = 59` and exactly `0` at `s = 0`. -/
theorem c6_second_progress_formula (t : DateTime) (h : t.second ≤ 59) :
    get_second_progress t = min ((t.second : ℚ) / 59 * 100) 100 ∧
    get_second_progress t = (t.second : ℚ) / 59 * 100 ∧
    (t.second = 59 → get_second_progress t = 100) ∧
    (t.second = 0 → get_second_progress t = 0) := by
  have hs : (t.second : ℚ) ≤ 59 := by exact_mod_cast h
  have hb : (t.second : ℚ) / 59 * 100 ≤ 100 := by
    rw [div_mul_eq_mul_div, div_le_iff₀ (by norm_num)]
    linarith
  refine ⟨rfl, ?_, ?_, ?_⟩
  · simpa [get_second_progress] using min_eq_left hb
  · intro h59
    norm_num [get_second_progress, h59]
  · intro h0
    simp [get_second_progress, h0]

/-- Concrete instantiation of `c6_second_progress_formula` at second 59. -/
def tSecond59 : DateTime := ⟨2025, 6, 15, 10, 30, 59⟩

theorem c6_second_progress_formula_witness :
    tSecond59.second ≤ 59 ∧
    (get_second_progress tSecond59 = min ((tSecond59.second : ℚ) / 59 * 100) 100 ∧
     get_second_progress tSecond59 = (tSecond59.second : ℚ) / 59 * 100 ∧
     (tSecond59.second = 59 → get_second_progress tSecond59 = 100) ∧
     (tSecond59.second = 0 → get_second_progress tSecond59 = 0)) :=
  ⟨by decide, c6_second_progress_formula tSecond59 (by decide)⟩

/-- C7: at every valid instant, each of the year fraction, day fraction and
sub-minute tick percentages lies in `[0, 100]`. -/
theorem c7_fractions_in_range (t : DateTime) (h : t.Valid) :
    (0 ≤ get_year_progress t ∧ get_year_progress t ≤ 100) ∧
    (0 ≤ get_day_progress t ∧ get_day_progress t ≤ 100) ∧
    (0 ≤ get_second_progress t ∧ get_second_progress t ≤ 100) := by
  obtain ⟨hy, _, _, _, _, _, _, _⟩ := h
  refine ⟨⟨?_, min_le_right _ _⟩, ⟨?_, min_le_right _ _⟩, ⟨?_, min_le_right _ _⟩⟩
  · have h1 : (toSeconds ⟨t.year, 1, 1, 0, 0, 0⟩ : ℚ) ≤ (toSeconds t : ℚ) := by
      exact_mod_cast toSeconds_year_start_le t
    have h2 : (toSeconds ⟨t.year, 1, 1, 0, 0, 0⟩ : ℚ) ≤
        (toSeconds ⟨t.year + 1, 1, 1, 0, 0, 0⟩ : ℚ) := by
      exact_mod_cast le_of_lt (toSeconds_year_lt t hy)
    refine le_min (mul_nonneg (div_nonneg ?_ ?_) (by norm_num)) (by norm_num)
    · simpa [get_year_progress] using sub_nonneg.mpr h1
    · simpa [get_year_progress] using sub_nonneg.mpr h2
  · have h1 : (toSeconds ⟨t.year, t.month, t.day, 0, 0, 0⟩ : ℚ) ≤ (toSeconds t : ℚ) := by
      exact_mod_cast toSeconds_day_start_le t
    refine le_min (mul_nonneg (div_nonneg ?_ ?_) (by norm_num)) (by norm_num)
    · simpa using sub_nonneg.mpr h1
    · push_cast
      ring_nf
      norm_num
  · refine le_min (mul_nonneg (div_nonneg ?_ (by norm_num)) (by norm_num)) (by norm_num)
    positivity

/-- Concrete instantiation of `c7_fractions_in_range` at the last second of a year. -/
def tYearEnd : DateTime := ⟨2025, 12, 31, 23, 59, 59⟩

theorem c7_fractions_in_range_witness :
    tYearEnd.Valid ∧
    ((0 ≤ get_year_progress tYearEnd ∧ get_year_progress tYearEnd ≤ 100) ∧
     (0 ≤ get_day_progress tYearEnd ∧ get_day_progress tYearEnd ≤ 100) ∧
     (0 ≤ get_second_progress tYearEnd ∧ get_second_progress tYearEnd ≤ 100)) :=
  ⟨by decide, c7_fractions_in_range tYearEnd (by decide)⟩

/-- The apostrophe character, as a one-character string. -/
def apos : String := String.singleton (Char.ofNat 39)

/-- Decimal digit character for `k < 10`. -/
def digitChar : ℕ → Char
  | 0 => '0' | 1 => '1' | 2 => '2' | 3 => '3' | 4 => '4'
  | 5 => '5' | 6 => '6' | 7 => '7' | 8 => '8' | _ => '9'

/-- The ten decimal digit characters. -/
def digitList : List Char := ['0', '1', '2', '3', '4', '5', '6', '7', '8', '9']

/-- Most-significant-first decimal digits of `n` (empty for `n = 0`);
`fuel` bounds the recursion and any `fuel ≥ n` is exact. -/
def natCharsAux : ℕ → ℕ → List Char
  | 0, _ => []
  | fuel + 1, n => if n = 0 then [] else natCharsAux fuel (n / 10) ++ [digitChar (n % 10)]

/-- Decimal representation of `n`, as Python's `str` renders it. -/
def natToChars (n : ℕ) : List Char := if n = 0 then ['0'] else natCharsAux n n

def natToString (n : ℕ) : String := String.mk (natToChars n)

/-- Python `str` of an `int` (the only negative values the program prints
come from `months_left`). -/
def intToString (i : ℤ) : String :=
  if i < 0 then "-" ++ natToString i.natAbs else natToString i.toNat

/-- Two-digit zero padding, as Python renders a width-2 zero-padded int. -/
def pad2 (n : ℕ) : String := if n < 10 then "0" ++ natToString n else natToString n

/-- Python `round` on a rational: round half to even. -/
def pyRound (q : ℚ) : ℤ :=
  let f : ℤ := Int.floor q
  let r : ℚ := q - (f : ℚ)
  if r < 1 / 2 then f
  else if 1 / 2 < r then f + 1
  else if f % 2 = 0 then f else f + 1

/-- `get_progress_bar` from the source:
`filled = int(round(bar_length * percentage / 100))`. -/
def get_progress_bar (percentage : ℚ) (bar_length : ℕ) : String :=
  let filled : ℕ := (pyRound ((bar_length : ℚ) * percentage / 100)).toNat
  let empty : ℕ := bar_length - filled
  String.mk (List.replicate filled '█' ++ List.replicate empty '░')

/-- Fractional digits of `v` padded on the left with zeros to width `prec`
(the digits after the decimal point of a fixed-point rendering). -/
def fracPadChars (v prec : ℕ) : List Char :=
  List.replicate (prec - (natToChars v).length) '0' ++ natToChars v

/-- Fixed-point decimal rendering of the scaled integer `n`
(value `n / 10 ^ prec`), i.e. the text Python fixed-point formatting produces. -/
def fixedChars (n prec : ℕ) : List Char :=
  natToChars (n / 10 ^ prec) ++ '.' :: fracPadChars (n % 10 ^ prec) prec

/-- Python's `str.rstrip(c)` for a single strip character. -/
def dropTrailing (c : Char) (l : List Char) : List Char :=
  (l.reverse.dropWhile (fun x => x == c)).reverse

/-- The source's percent cleanup: `.rstrip('0').rstrip('.')`. -/
def pyStrip (l : List Char) : List Char := dropTrailing '.' (dropTrailing '0' l)

def digitVal (c : Char) : ℕ := c.toNat - 48

/-- Numeric value of a digit string read in base 10. -/
def digitsVal (l : List Char) : ℕ := l.foldl (fun a c => a * 10 + digitVal c) 0

/-- Value denoted by a (possibly stripped) fixed-point decimal string. -/
def valueOf (l : List Char) : ℚ :=
  let ip := l.takeWhile (fun c => c != '.')
  let rest := l.dropWhile (fun c => c != '.')
  (digitsVal ip : ℚ) +
    match rest with
    | [] => 0
    | _ :: frac => (digitsVal frac : ℚ) / 10 ^ frac.length

/-- Python fixed-point formatting of a nonnegative rational to `prec` digits. -/
def pyFormatChars (q : ℚ) (prec : ℕ) : List Char :=
  fixedChars (pyRound (q * 10 ^ prec)).toNat prec

/-- Format then strip, as the source does for each percentage. -/
def formatPercent (q : ℚ) (prec : ℕ) : String := String.mk (pyStrip (pyFormatChars q prec))

/-- `now.strftime("%B")`. -/
def monthNameOf : ℕ → String
  | 1 => "January" | 2 => "February" | 3 => "March" | 4 => "April"
  | 5 => "May" | 6 => "June" | 7 => "July" | 8 => "August"
  | 9 => "September" | 10 => "October" | 11 => "November" | 12 => "December"
  | _ => ""

/-- `now.strftime("%b")`. -/
def monthAbbrOf : ℕ → String
  | 1 => "Jan" | 2 => "Feb" | 3 => "Mar" | 4 => "Apr"
  | 5 => "May" | 6 => "Jun" | 7 => "Jul" | 8 => "Aug"
  | 9 => "Sep" | 10 => "Oct" | 11 => "Nov" | 12 => "Dec"
  | _ => ""

/-- First day of the month after `now`, as `get_month_info` computes it. -/
def nextMonthStart (now : DateTime) : DateTime :=
  if now.month = 12 then ⟨now.year + 1, 1, 1, 0, 0, 0⟩
  else ⟨now.year, now.month + 1, 1, 0, 0, 0⟩

/-- `get_month_info` from the source: month name, `(next_month - now).days`
(Python floor division of the timedelta), and
`months_left = 12 - now.month`, decremented when `days_left <= 0`. -/
def get_month_info (now : DateTime) : String × ℤ × ℤ :=
  let month_name := monthNameOf now.month
  let next_month := nextMonthStart now
  let days_left : ℤ := Int.fdiv ((toSeconds next_month : ℤ) - (toSeconds now : ℤ)) 86400
  let months_left : ℤ := (12 - (now.month : ℤ)) - (if days_left ≤ 0 then 1 else 0)
  (month_name, days_left, months_left)

/-- The fixed quote list, verbatim from the source. -/
def QUOTES : List String :=
  [ "Time is the most valuable currency - spend it wisely.",
    "Don" ++ apos ++ "t watch the clock; do what it does. Keep going.",
    "The bad news is time flies. The good news is you" ++ apos ++ "re the pilot.",
    "Yesterday is history, tomorrow is a mystery, today is a gift.",
    "Each sunrise brings new opportunities; each sunset brings reflection.",
    "Time doesn" ++ apos ++ "t change us, it just unfolds us.",
    "The key is not to prioritize what" ++ apos ++ "s on your schedule, but to schedule your priorities.",
    "Lost time is never found again.",
    "The night is darkest just before the dawn.",
    "Make each day your masterpiece.",
    "Life is not about waiting for the storm to pass, but learning to dance in the rain.",
    "Just when the caterpillar thought the world was over, it became a butterfly.",
    "After every storm, there is a rainbow of hope.",
    "Life is a journey to be experienced, not a problem to be solved.",
    "Life is like the ocean - it can be calm or rough, but it" ++ apos ++ "s always beautiful.",
    "The best time to plant a tree was 20 years ago. The second best time is now.",
    "You are never too old to set another goal or to dream a new dream.",
    "Life begins at the end of your comfort zone.",
    "We are all diamonds in the rough, being polished by life" ++ apos ++ "s challenges.",
    "Bloom where you are planted.",
    "The heart that loves is always young.",
    "Happiness is not something ready-made. It comes from your own actions.",
    "Sometimes the smallest step in the right direction ends up being the biggest step of your life.",
    "Even the darkest night will end and the sun will rise.",
    "Alone we can do so little; together we can do so much.",
    "Where words fail, music speaks.",
    "Peace begins with a smile.",
    "You are braver than you believe, stronger than you seem, and smarter than you think.",
    "Every flower must grow through dirt.",
    "The most precious things in life are not things, but moments." ]

/-- `get_random_quote` from the source: `QUOTES[minute % len(QUOTES)]`. -/
def get_random_quote (now : DateTime) : String :=
  QUOTES.get ⟨now.minute % QUOTES.length, Nat.mod_lt _ (by decide)⟩

/-- The 12-hour hour number computed by `format_12h_time`. -/
def hour12 (h : ℕ) : ℕ :=
  if h = 0 then 12 else if h < 12 then h else if h = 12 then 12 else h - 12

/-- The AM/PM tag computed by `format_12h_time`. -/
def meridiem (h : ℕ) : String :=
  if h = 0 then "AM" else if h < 12 then "AM" else if h = 12 then "PM" else "PM"

/-- `format_12h_time` from the source:
the zero-padded `hh:mm:ss AM/PM` text. -/
def format_12h_time (t : DateTime) : String :=
  pad2 (hour12 t.hour) ++ ":" ++ pad2 t.minute ++ ":" ++ pad2 t.second ++ " " ++ meridiem t.hour

/-- Body of `generate_progress_message`, with the six successive
`get_ist_now()` reads (one inside each helper, then the direct one)
passed in source order. -/
def renderParts (t0 t1 t2 t3 t4 t5 : DateTime) : String :=
  let year_progress := get_year_progress t0
  let day_progress := get_day_progress t1
  let second_progress := get_second_progress t2
  let mi := get_month_info t3
  let quote := get_random_quote t4
  let now := t5
  let year_bar := get_progress_bar year_progress 20
  let day_bar := get_progress_bar day_progress 20
  let second_bar := get_progress_bar second_progress 20
  let year_percent := formatPercent year_progress 6
  let day_percent := formatPercent day_progress 6
  let second_percent := formatPercent second_progress 2
  let time_12h := format_12h_time now
  "⏰ LIVE TIME PROGRESS ⏰\n══════════════════════\n\n📅 YEAR " ++
    natToString now.year ++ " PROGRESS\n" ++ year_bar ++ "\n" ++ year_percent ++
    "% completed\n\n🌞 TODAY" ++ apos ++ "S PROGRESS \n" ++ day_bar ++ "\n" ++
    day_percent ++ "% completed\n\n⏱️ SECOND PROGRESS\n" ++ second_bar ++ "\n" ++
    second_percent ++ "% completed\n\n══════════════════════\n🗓️ MONTH INFORMATION\n├ Current Month: " ++
    mi.1 ++ "\n├ Days Remaining: " ++ intToString mi.2.1 ++
    " days\n└ Months Remaining: " ++ intToString mi.2.2 ++
    " months\n\n⏰ CURRENT TIME (IST)\n├ Date: " ++
    pad2 now.day ++ " " ++ monthAbbrOf now.month ++ " " ++ natToString now.year ++
    "\n├ Time: " ++ time_12h ++ "\n└ Second: " ++ natToString now.second ++
    "\n══════════════════════\n💭 QUOTE OF THE MINUTE\n" ++ quote ++
    "\n══════════════════════\n🔄 Updates every 5 seconds \n🤖 DevLoper :- @ravi_chad"

/-- `generate_progress_message` from the source; `clk i` is the value of
the `i`-th `get_ist_now()` call during this render. -/
def generate_progress_message (clk : ℕ → DateTime) : String :=
  renderParts (clk 0) (clk 1) (clk 2) (clk 3) (clk 4) (clk 5)

/-- C9: the displayed quote is a function of `minute % len(QUOTES)` alone —
two reads agreeing on that residue yield the same quote. -/
theorem c9_quote_from_minute_mod (t t' : DateTime)
    (h : t.minute % QUOTES.length = t'.minute % QUOTES.length) :
    get_random_quote t = get_random_quote t' := by
  unfold get_random_quote
  exact congrArg _ (Fin.ext h)

/-- Two instants in the same minute (and even with every other field
different) get the same quote. -/
def tQuoteA : DateTime := ⟨2025, 1, 1, 0, 7, 3⟩

def tQuoteB : DateTime := ⟨2030, 12, 31, 23, 37, 59⟩

theorem c9_quote_from_minute_mod_witness :
    tQuoteA.minute % QUOTES.length = tQuoteB.minute % QUOTES.length ∧
    get_random_quote tQuoteA = get_random_quote tQuoteB :=
  ⟨by decide, c9_quote_from_minute_mod tQuoteA tQuoteB (by decide)⟩

lemma hour12_meridiem_cases (n : ℕ) (h : n < 24) :
    (1 ≤ hour12 n ∧ hour12 n ≤ 12) ∧ (pad2 (hour12 n)).length = 2 ∧
    (n = 0 → hour12 n = 12 ∧ meridiem n = "AM") ∧
    (1 ≤ n ∧ n ≤ 11 → hour12 n = n ∧ meridiem n = "AM") ∧
    (n = 12 → hour12 n = 12 ∧ meridiem n = "PM") ∧
    (13 ≤ n ∧ n ≤ 23 → hour12 n = n - 12 ∧ meridiem n = "PM") := by
  interval_cases n <;> exact (by decide)

/-- C10: the 12-hour clock maps hour `0` to `12 AM`, `1..11` unchanged to AM,
`12` to `12 PM`, `13..23` to `h − 12 PM`; the displayed hour is zero-padded
and lies in `01..12`. -/
theorem c10_twelve_hour_clock (t : DateTime) (h : t.hour < 24) :
    ((1 ≤ hour12 t.hour ∧ hour12 t.hour ≤ 12) ∧ (pad2 (hour12 t.hour)).length = 2 ∧
     (t.hour = 0 → hour12 t.hour = 12 ∧ meridiem t.hour = "AM") ∧
     (1 ≤ t.hour ∧ t.hour ≤ 11 → hour12 t.hour = t.hour ∧ meridiem t.hour = "AM") ∧
     (t.hour = 12 → hour12 t.hour = 12 ∧ meridiem t.hour = "PM") ∧
     (13 ≤ t.hour ∧ t.hour ≤ 23 → hour12 t.hour = t.hour - 12 ∧ meridiem t.hour = "PM")) ∧
    format_12h_time t =
      pad2 (hour12 t.hour) ++ ":" ++ pad2 t.minute ++ ":" ++ pad2 t.second ++ " " ++
        meridiem t.hour :=
  ⟨hour12_meridiem_cases t.hour h, rfl⟩

def tMidnight : DateTime := ⟨2025, 6, 15, 0, 5, 9⟩

theorem c10_twelve_hour_clock_witness :
    tMidnight.hour < 24 ∧
    (((1 ≤ hour12 tMidnight.hour ∧ hour12 tMidnight.hour ≤ 12) ∧
      (pad2 (hour12 tMidnight.hour)).length = 2 ∧
      (tMidnight.hour = 0 → hour12 tMidnight.hour = 12 ∧ meridiem tMidnight.hour = "AM") ∧
      (1 ≤ tMidnight.hour ∧ tMidnight.hour ≤ 11 →
        hour12 tMidnight.hour = tMidnight.hour ∧ meridiem tMidnight.hour = "AM") ∧
      (tMidnight.hour = 12 → hour12 tMidnight.hour = 12 ∧ meridiem tMidnight.hour = "PM") ∧
      (13 ≤ tMidnight.hour ∧ tMidnight.hour ≤ 23 →
        hour12 tMidnight.hour = tMidnight.hour - 12 ∧ meridiem tMidnight.hour = "PM")) ∧
     format_12h_time tMidnight =
       pad2 (hour12 tMidnight.hour) ++ ":" ++ pad2 tMidnight.minute ++ ":" ++
         pad2 tMidnight.second ++ " " ++ meridiem tMidnight.hour) :=
  ⟨by decide, c10_twelve_hour_clock tMidnight (by decide)⟩

/-- Does `pat` occur at the head of the second list? -/
def listStartsWith : List Char → List Char → Bool
  | [], _ => true
  | _ :: _, [] => false
  | a :: as, b :: bs => a == b && listStartsWith as bs

/-- Does `pat` occur as a contiguous substring? -/
def listContainsSub (pat : List Char) : List Char → Bool
  | [] => listStartsWith pat []
  | c :: cs => listStartsWith pat (c :: cs) || listContainsSub pat cs

/-- Python's `pat in text` on strings. -/
def strContainsSub (text pat : String) : Bool := listContainsSub pat.toList text.toList

/-- The loop's terminal classification:
`"message to edit not found" in error_msg or "Message can't be edited" in error_msg`. -/
def isTerminalErr (msg : String) : Bool :=
  strContainsSub msg ("message to edit not found") ||
  strContainsSub msg ("Message can" ++ apos ++ "t be edited")

/-- The loop's rate-limit classification:
`"Flood control" / "429" / "Too Many Requests"`. -/
def isRateLimitErr (msg : String) : Bool :=
  strContainsSub msg ("Flood control") || strContainsSub msg ("429") ||
  strContainsSub msg ("Too Many Requests")

/-- One observable step of the update loop. -/
inductive LoopAction where
  | edit : LoopAction
  | sleep (seconds : ℕ) : LoopAction
  deriving DecidableEq, Repr

/-- The body of `update_message_continuously` run against a trace of edit
outcomes (`none` = the edit succeeded, `some msg` = it raised an error with
text `msg`), starting with the running flag true.  Returns the flag when the
trace is exhausted (or the loop broke out) and the actions performed. -/
def loopRun : List (Option String) → Bool × List LoopAction
  | [] => (true, [])
  | none :: rest =>
    let r := loopRun rest
    (r.1, LoopAction.edit :: LoopAction.sleep 5 :: r.2)
  | some msg :: rest =>
    if isTerminalErr msg then (false, [LoopAction.edit])
    else
      let r := loopRun rest
      (r.1, LoopAction.edit :: LoopAction.sleep (if isRateLimitErr msg then 30 else 10) :: r.2)

/-- `update_message_continuously`: the loop checks the conversation's
running flag at the top and does nothing when it is already false. -/
def update_message_continuously (running : Bool) (outcomes : List (Option String)) :
    Bool × List LoopAction :=
  if running then loopRun outcomes else (false, [])

/-- C1: a terminal edit error (message not found / message can't be edited)
clears the running flag and exits at once — the failing edit is the last
action, with no sleep after it and no further edit from the rest of the
trace; and a loop whose flag is false performs nothing at all. -/
theorem c1_terminal_error_stops_loop (msg : String) (rest rest2 : List (Option String))
    (h : isTerminalErr msg = true) :
    update_message_continuously true (some msg :: rest) = (false, [LoopAction.edit]) ∧
    update_message_continuously false rest2 = (false, []) := by
  constructor
  · simp [update_message_continuously, loopRun, h]
  · simp [update_message_continuously]

def terminalMsgExample : String := "Bad Request: Message can" ++ apos ++ "t be edited"

theorem c1_terminal_error_stops_loop_witness :
    isTerminalErr terminalMsgExample = true ∧
    (update_message_continuously true [some terminalMsgExample, none] =
        (false, [LoopAction.edit]) ∧
     update_message_continuously false [none] = (false, [])) :=
  ⟨by decide, c1_terminal_error_stops_loop terminalMsgExample [none] [none] (by decide)⟩

lemma loopRun_fst_of_no_terminal (outcomes : List (Option String))
    (h : ∀ m : String, some m ∈ outcomes → isTerminalErr m = false) :
    (loopRun outcomes).1 = true := by
  induction outcomes with
  | nil => rfl
  | cons o rest ih =>
    cases o with
    | none =>
      simpa [loopRun] using ih (fun m hm => h m (List.mem_cons_of_mem _ hm))
    | some msg =>
      have hm := h msg (List.mem_cons_self _ _)
      simpa [loopRun, hm] using ih (fun m hmm => h m (List.mem_cons_of_mem _ hmm))

/-- C2: a non-terminal edit failure keeps the session active and continues —
the iteration is the failing edit followed by a 30-second sleep when the
error is rate-limiting and a 10-second sleep otherwise, after which the loop
proceeds with the remaining trace; on a trace with no terminal error the
flag is still true at the end, so the loop never terminates itself. -/
theorem c2_nonterminal_error_continues (msg : String) (rest : List (Option String))
    (hterm : isTerminalErr msg = false)
    (hrest : ∀ m : String, some m ∈ rest → isTerminalErr m = false) :
    (update_message_continuously true (some msg :: rest)).1 = true ∧
    (update_message_continuously true (some msg :: rest)).2 =
      LoopAction.edit :: LoopAction.sleep (if isRateLimitErr msg then 30 else 10) ::
        (update_message_continuously true rest).2 := by
  have hfst : (loopRun rest).1 = true := loopRun_fst_of_no_terminal rest hrest
  constructor
  · simp [update_message_continuously, loopRun, hterm, hfst]
  · simp [update_message_continuously, loopRun, hterm]

def floodMsgExample : String := "Flood control exceeded. Retry in 16 seconds"

def unknownMsgExample : String := "Connection reset by peer"

theorem c2_nonterminal_error_continues_witness :
    isTerminalErr floodMsgExample = false ∧
    (∀ m : String, some m ∈ [some unknownMsgExample] → isTerminalErr m = false) ∧
    ((update_message_continuously true
        (some floodMsgExample :: [some unknownMsgExample])).1 = true ∧
     (update_message_continuously true
        (some floodMsgExample :: [some unknownMsgExample])).2 =
       LoopAction.edit ::
         LoopAction.sleep (if isRateLimitErr floodMsgExample then 30 else 10) ::
           (update_message_continuously true [some unknownMsgExample]).2) :=
  ⟨by decide,
   by
     intro m hm
     simp only [List.mem_singleton, Option.some.injEq] at hm
     subst hm
     decide,
   c2_nonterminal_error_continues floodMsgExample [some unknownMsgExample]
     (by decide)
     (by
       intro m hm
       simp only [List.mem_singleton, Option.some.injEq] at hm
       subst hm
       decide)⟩

/-- Per-conversation session state (`is_running_*`, `last_msg_id_*`). -/
structure Session where
  active : Bool
  lastMsgId : Option ℕ
  deriving DecidableEq, Repr

/-- Everything the `/progress` handler does that is visible from outside:
the session it leaves behind, the messages it sends in order, whether a new
progress message was sent, and whether a new loop task was created. -/
structure StartResult where
  session : Session
  sends : List String
  sentProgressMessage : Bool
  taskStarted : Bool
  deriving DecidableEq, Repr

def alreadyRunningReply : String := "⏳ Live progress is already running! Use /stop to end it."

def startedInfoReply : String :=
  "✅ Live Progress Started!\n\nThe progress is now updating every 5 seconds!\n\nUse /stop to end updates."

/-- The `progress` command handler from the source.  When the session is
active it only replies; otherwise it sends the initial payload, records the
new message id, sets the flag, creates the loop task and confirms. -/
def progress (s : Session) (clk : ℕ → DateTime) (newMsgId : ℕ) : StartResult :=
  if s.active then
    ⟨s, [alreadyRunningReply], false, false⟩
  else
    ⟨⟨true, some newMsgId⟩, [generate_progress_message clk, startedInfoReply], true, true⟩

/-- C3: a start while the flag is true replies "already running" and does
nothing else — the session is unchanged, no progress message is sent and no
task is created; consequently two starts in a row (from idle) create exactly
one loop task, the second attempt being a pure reply. -/
theorem c3_duplicate_start_noop (s : Session) (clk : ℕ → DateTime) (id1 id2 : ℕ)
    (h : s.active = true) :
    progress s clk id1 = ⟨s, [alreadyRunningReply], false, false⟩ ∧
    ((progress ⟨false, none⟩ clk id1).taskStarted = true ∧
     (progress (progress ⟨false, none⟩ clk id1).session clk id2).taskStarted = false ∧
     (progress (progress ⟨false, none⟩ clk id1).session clk id2).session =
       (progress ⟨false, none⟩ clk id1).session ∧
     (progress (progress ⟨false, none⟩ clk id1).session clk id2).sends =
       [alreadyRunningReply]) := by
  constructor
  · simp [progress, h]
  · simp [progress]

def tStart : DateTime := ⟨2025, 6, 15, 10, 30, 0⟩

def clkStart : ℕ → DateTime := fun _ => tStart

theorem c3_duplicate_start_noop_witness :
    (⟨true, some 1⟩ : Session).active = true ∧
    (progress ⟨true, some 1⟩ clkStart 5 = ⟨⟨true, some 1⟩, [alreadyRunningReply], false, false⟩ ∧
     ((progress ⟨false, none⟩ clkStart 5).taskStarted = true ∧
      (progress (progress ⟨false, none⟩ clkStart 5).session clkStart 6).taskStarted = false ∧
      (progress (progress ⟨false, none⟩ clkStart 5).session clkStart 6).session =
        (progress ⟨false, none⟩ clkStart 5).session ∧
      (progress (progress ⟨false, none⟩ clkStart 5).session clkStart 6).sends =
        [alreadyRunningReply])) :=
  ⟨rfl, c3_duplicate_start_noop ⟨true, some 1⟩ clkStart 5 6 rfl⟩

lemma append_ne_left {a a' b b' : String} (hb : b = b') (h : a ≠ a') :
    a ++ b ≠ a' ++ b' := by
  subst hb
  intro he
  apply h
  apply String.ext
  have hd : a.data ++ b.data = a'.data ++ b.data := by
    simpa [String.data_append] using congrArg String.data he
  exact (List.append_inj' hd rfl).1

lemma append_ne_right {a a' b b' : String} (hlen : b.length = b'.length) (h : b ≠ b') :
    a ++ b ≠ a' ++ b' := by
  intro he
  apply h
  apply String.ext
  have hd : a.data ++ b.data = a'.data ++ b'.data := by
    simpa [String.data_append] using congrArg String.data he
  exact (List.append_inj' hd hlen).2

def tRead : DateTime := ⟨2025, 6, 15, 10, 30, 0⟩

def tReadLate : DateTime := ⟨2025, 6, 15, 10, 30, 9⟩

/-- A render whose six clock reads all return `tRead`. -/
def clkConstC4 : ℕ → DateTime := fun _ => tRead

/-- A render whose sixth clock read (the direct `now` used for the
date/clock display) returns a later instant. -/
def clkSkewC4 : ℕ → DateTime := fun i => if i = 5 then tReadLate else tRead

/-- C4 as stated is false: the renderer re-reads the clock per field, so two
renders agreeing on the first captured `now` can still differ (here the
displayed clock reflects a different instant than the first read). -/
theorem c4_single_now_counterexample :
    ¬ (∀ clk clk' : ℕ → DateTime, clk 0 = clk' 0 →
        generate_progress_message clk = generate_progress_message clk') := by
  intro hall
  have h := hall clkConstC4 clkSkewC4 rfl
  revert h
  apply append_ne_left rfl
  apply append_ne_left rfl
  apply append_ne_left rfl
  refine append_ne_right ?_ ?_
  · decide
  · decide

/-- C4 amended: one render makes exactly six clock reads (one per helper,
then one direct), and its output is determined by those six read values;
fields fed by different reads may reflect different instants. -/
theorem c4_render_from_six_reads (clk clk' : ℕ → DateTime)
    (h : ∀ i, i < 6 → clk i = clk' i) :
    generate_progress_message clk = generate_progress_message clk' := by
  unfold generate_progress_message
  rw [h 0 (by omega), h 1 (by omega), h 2 (by omega), h 3 (by omega),
    h 4 (by omega), h 5 (by omega)]

/-- A clock stream differing from `clkConstC4` only at read index 7,
beyond the six reads a render performs. -/
def clkTailC4 : ℕ → DateTime := fun i => if i = 7 then tReadLate else tRead

theorem c4_render_from_six_reads_witness :
    (∀ i, i < 6 → clkConstC4 i = clkTailC4 i) ∧
    generate_progress_message clkConstC4 = generate_progress_message clkTailC4 :=
  ⟨fun i hi => by interval_cases i <;> rfl,
   c4_render_from_six_reads clkConstC4 clkTailC4 (fun i hi => by interval_cases i <;> rfl)⟩

lemma daysBeforeMonth_step (y m : ℕ) (h1 : 1 ≤ m) (h2 : m ≤ 11) :
    daysBeforeMonth y (m + 1) = daysBeforeMonth y m + daysInMonth y m := by
  interval_cases m <;> cases hL : isLeap y <;>
    simp [daysBeforeMonth, daysInMonth, hL]

lemma leapCount_step (y : ℕ) (hy : 1 ≤ y) :
    leapCount y = leapCount (y - 1) + (if isLeap y then 1 else 0) := by
  by_cases hL : isLeap y = true
  · rw [if_pos hL]
    simp only [isLeap, Bool.or_eq_true, Bool.and_eq_true, beq_iff_eq, bne_iff_ne] at hL
    unfold leapCount
    omega
  · rw [if_neg hL]
    simp only [isLeap, Bool.or_eq_true, Bool.and_eq_true, beq_iff_eq, bne_iff_ne,
      not_or, not_and, not_not] at hL
    unfold leapCount
    omega

lemma nextFirst_days (t : DateTime) (hy : 1 ≤ t.year) (hm1 : 1 ≤ t.month)
    (hm12 : t.month ≤ 12) :
    daysFromCivil (nextMonthStart t).year (nextMonthStart t).month (nextMonthStart t).day =
      daysFromCivil t.year t.month 1 + daysInMonth t.year t.month := by
  by_cases hm : t.month = 12
  · have hstep := leapCount_step t.year hy
    cases hL : isLeap t.year <;>
      simp [nextMonthStart, hm, daysFromCivil, daysBeforeMonth, daysInMonth, hL] at hstep ⊢ <;>
      omega
  · have hmle : t.month ≤ 11 := by omega
    have hstep := daysBeforeMonth_step t.year t.month hm1 hmle
    simp only [nextMonthStart, hm, if_neg, ite_false]
    simp only [daysFromCivil]
    omega

lemma fdiv_natCast_86400 (a : ℕ) : Int.fdiv (a : ℤ) 86400 = ((a / 86400 : ℕ) : ℤ) := by
  cases a <;> rfl

def tC5 : DateTime := ⟨2025, 1, 31, 0, 0, 0⟩

/-- C5 as stated is false: at the exact midnight that begins the last day of
a month (here 2025-01-31 00:00:00), `(next_month - now).days` is exactly `1`,
so the code does not decrement `months_left` (it yields `11`, not `10`)
although the current day is the last day of the month. -/
theorem c5_months_left_counterexample :
    tC5.day = daysInMonth tC5.year tC5.month ∧
    (get_month_info tC5).2.2 ≠ (12 - (tC5.month : ℤ)) - 1 := by
  constructor
  · decide
  · decide

/-- C5 amended: `months_left` equals `12 − month`, decremented by one iff
the current day is the last day of the month and the instant is strictly
after that day's midnight (i.e. strictly less than one full day remains). -/
theorem c5_months_left_amended (t : DateTime) (h : t.Valid) :
    (get_month_info t).2.2 = (12 - (t.month : ℤ)) -
      (if t.day = daysInMonth t.year t.month ∧
          0 < 3600 * t.hour + 60 * t.minute + t.second
       then 1 else 0) := by
  obtain ⟨hy, hm1, hm12, hd1, hdim, hh, hmi, hs⟩ := h
  have hnext := nextFirst_days t hy hm1 hm12
  have hdd : daysFromCivil t.year t.month t.day =
      daysFromCivil t.year t.month 1 + (t.day - 1) := by
    simp only [daysFromCivil]
    omega
  have hS : toSeconds t = 86400 * (daysFromCivil t.year t.month 1 + (t.day - 1)) +
      (3600 * t.hour + 60 * t.minute + t.second) := by
    simp only [toSeconds, hdd]
    omega
  have hN : toSeconds (nextMonthStart t) =
      86400 * (daysFromCivil t.year t.month 1 + daysInMonth t.year t.month) := by
    by_cases hm : t.month = 12 <;>
      simp only [nextMonthStart, hm, if_true, if_false, ite_true, ite_false, toSeconds] at hnext ⊢ <;>
      omega
  have hiff : (Int.fdiv ((toSeconds (nextMonthStart t) : ℤ) - (toSeconds t : ℤ)) 86400 ≤ 0) ↔
      (t.day = daysInMonth t.year t.month ∧
        0 < 3600 * t.hour + 60 * t.minute + t.second) := by
    have hle : toSeconds t ≤ toSeconds (nextMonthStart t) := by omega
    have hcast : (toSeconds (nextMonthStart t) : ℤ) - (toSeconds t : ℤ) =
        ((toSeconds (nextMonthStart t) - toSeconds t : ℕ) : ℤ) := by omega
    rw [hcast, fdiv_natCast_86400]
    omega
  simp only [get_month_info]
  congr 1
  exact if_congr hiff rfl rfl

def tC5W : DateTime := ⟨2025, 1, 31, 12, 0, 0⟩

theorem c5_months_left_amended_witness :
    tC5W.Valid ∧
    (get_month_info tC5W).2.2 = (12 - (tC5W.month : ℤ)) -
      (if tC5W.day = daysInMonth tC5W.year tC5W.month ∧
          0 < 3600 * tC5W.hour + 60 * tC5W.minute + tC5W.second
       then 1 else 0) :=
  ⟨by decide, c5_months_left_amended tC5W (by decide)⟩

lemma mem_takeWhile {p : Char → Bool} : ∀ {l : List Char} {c : Char},
    c ∈ l.takeWhile p → p c = true := by
  intro l
  induction l with
  | nil => intro c h; simp [List.takeWhile] at h
  | cons x xs ih =>
    intro c h
    by_cases hx : p x
    · rw [List.takeWhile_cons_of_pos hx] at h
      rcases List.mem_cons.1 h with rfl | hmem
      · exact hx
      · exact ih hmem
    · rw [List.takeWhile_cons_of_neg hx] at h
      simp at h

lemma takeWhile_all {p : Char → Bool} : ∀ {l : List Char},
    (∀ c ∈ l, p c = true) → l.takeWhile p = l := by
  intro l
  induction l with
  | nil => intro _; rfl
  | cons x xs ih =>
    intro h
    rw [List.takeWhile_cons_of_pos (h x (List.mem_cons_self _ _))]
    rw [ih (fun c hc => h c (List.mem_cons_of_mem _ hc))]

lemma dropWhile_all_nil {p : Char → Bool} : ∀ {l : List Char},
    (∀ c ∈ l, p c = true) → l.dropWhile p = [] := by
  intro l
  induction l with
  | nil => intro _; rfl
  | cons x xs ih =>
    intro h
    rw [List.dropWhile_cons_of_pos (h x (List.mem_cons_self _ _))]
    exact ih (fun c hc => h c (List.mem_cons_of_mem _ hc))

lemma dropWhile_all_false {p : Char → Bool} {l : List Char}
    (h : ∀ c ∈ l, p c = false) : l.dropWhile p = l := by
  cases l with
  | nil => rfl
  | cons x xs =>
    exact List.dropWhile_cons_of_neg (by simp [h x (List.mem_cons_self _ _)])

lemma takeWhile_append_all {p : Char → Bool} {a : List Char} (b : List Char)
    (h : ∀ c ∈ a, p c = true) : (a ++ b).takeWhile p = a ++ b.takeWhile p := by
  induction a with
  | nil => rfl
  | cons x xs ih =>
    rw [List.cons_append, List.takeWhile_cons_of_pos (h x (List.mem_cons_self _ _))]
    rw [ih (fun c hc => h c (List.mem_cons_of_mem _ hc)), List.cons_append]

lemma dropWhile_append_all {p : Char → Bool} {a : List Char} (b : List Char)
    (h : ∀ c ∈ a, p c = true) : (a ++ b).dropWhile p = b.dropWhile p := by
  induction a with
  | nil => rfl
  | cons x xs ih =>
    rw [List.cons_append, List.dropWhile_cons_of_pos (h x (List.mem_cons_self _ _))]
    exact ih (fun c hc => h c (List.mem_cons_of_mem _ hc))

lemma digitChar_mem_digitList (k : ℕ) : digitChar k ∈ digitList := by
  rcases k with _|_|_|_|_|_|_|_|_|k <;>
    first
      | decide
      | exact (by decide : ('9' : Char) ∈ digitList)

lemma mem_natCharsAux_digit : ∀ (fuel n : ℕ) {c : Char},
    c ∈ natCharsAux fuel n → c ∈ digitList := by
  intro fuel
  induction fuel with
  | zero => intro n c h; simp [natCharsAux] at h
  | succ f ih =>
    intro n c h
    unfold natCharsAux at h
    by_cases hn : n = 0
    · simp [hn] at h
    · rw [if_neg hn] at h
      rcases List.mem_append.1 h with h1 | h2
      · exact ih _ h1
      · rw [List.mem_singleton.1 h2]
        exact digitChar_mem_digitList _

lemma mem_natToChars_digit {n : ℕ} {c : Char} (h : c ∈ natToChars n) : c ∈ digitList := by
  unfold natToChars at h
  by_cases hn : n = 0
  · rw [if_pos hn, List.mem_singleton] at h
    rw [h]; decide
  · rw [if_neg hn] at h
    exact mem_natCharsAux_digit _ _ h

lemma mem_fracPad_digit {v p : ℕ} {c : Char} (h : c ∈ fracPadChars v p) : c ∈ digitList := by
  unfold fracPadChars at h
  rcases List.mem_append.1 h with h1 | h2
  · rw [List.eq_of_mem_replicate h1]; decide
  · exact mem_natToChars_digit h2

lemma digit_ne_dot {c : Char} (h : c ∈ digitList) : (c == '.') = false := by
  fin_cases h <;> decide

lemma digit_bne_dot {c : Char} (h : c ∈ digitList) : (c != '.') = true := by
  fin_cases h <;> decide

lemma digitsVal_append_zeros : ∀ (Z : List Char), (∀ c ∈ Z, c = '0') →
    ∀ l : List Char, digitsVal (l ++ Z) = digitsVal l * 10 ^ Z.length := by
  intro Z
  induction Z with
  | nil => intro _ l; simp [List.append_nil]
  | cons z zs ih =>
    intro hz l
    have hz0 : z = '0' := hz z (List.mem_cons_self _ _)
    have hsplit : l ++ z :: zs = (l ++ [z]) ++ zs := by simp
    rw [hsplit, ih (fun c hc => hz c (List.mem_cons_of_mem _ hc)) (l ++ [z])]
    have hfold : digitsVal (l ++ [z]) = digitsVal l * 10 + digitVal z := by
      unfold digitsVal
      rw [List.foldl_append]
      rfl
    rw [hfold, hz0]
    have hdv : digitVal '0' = 0 := by decide
    rw [hdv, List.length_cons]
    ring

lemma valueOf_no_dot (I : List Char) (hI : ∀ c ∈ I, (c != '.') = true) :
    valueOf I = digitsVal I := by
  unfold valueOf
  rw [takeWhile_all hI, dropWhile_all_nil hI]
  simp

lemma valueOf_with_dot (I X : List Char) (hI : ∀ c ∈ I, (c != '.') = true) :
    valueOf (I ++ '.' :: X) = digitsVal I + (digitsVal X : ℚ) / 10 ^ X.length := by
  unfold valueOf
  rw [takeWhile_append_all _ hI, dropWhile_append_all _ hI]
  rw [List.takeWhile_cons_of_neg (by decide), List.dropWhile_cons_of_neg (by decide)]
  simp

lemma dropTrailing_append_all (c : Char) (a b : List Char) (hb : ∀ x ∈ b, x = c) :
    dropTrailing c (a ++ b) = dropTrailing c a := by
  unfold dropTrailing
  rw [List.reverse_append,
    dropWhile_append_all _ (fun x hx => by simp [hb x (List.mem_reverse.1 hx)])]

lemma dropTrailing_last_ne (c : Char) (a : List Char) (d : Char)
    (hd : (d == c) = false) : dropTrailing c (a ++ [d]) = a ++ [d] := by
  unfold dropTrailing
  rw [List.reverse_append]
  simp only [List.reverse_cons, List.reverse_nil, List.nil_append, List.singleton_append]
  rw [List.dropWhile_cons_of_neg (by simp [hd])]
  rw [List.reverse_cons, List.reverse_reverse]

lemma dropTrailing_no_occur (c : Char) (a : List Char)
    (ha : ∀ x ∈ a, (x == c) = false) : dropTrailing c a = a := by
  unfold dropTrailing
  rw [dropWhile_all_false (fun x hx => ha x (List.mem_reverse.1 hx))]
  exact List.reverse_reverse a

lemma pyStrip_all_zero (I F : List Char) (hI : ∀ c ∈ I, (c == '.') = false)
    (hF : ∀ c ∈ F, c = '0') : pyStrip (I ++ '.' :: F) = I := by
  unfold pyStrip
  have h1 : I ++ '.' :: F = (I ++ ['.']) ++ F := by simp
  rw [h1, dropTrailing_append_all _ _ _ hF,
    dropTrailing_last_ne _ _ _ (by decide)]
  have h2 : dropTrailing '.' ((I ++ ['.'])) = dropTrailing '.' I := by
    have := dropTrailing_append_all '.' I ['.'] (by simp)
    simpa using this
  rw [h2, dropTrailing_no_occur _ _ hI]

lemma pyStrip_tail_digit (I ds : List Char) (d : Char) (Z : List Char)
    (hZ : ∀ x ∈ Z, x = '0')
    (hd0 : (d == '0') = false) (hddot : (d == '.') = false) :
    pyStrip (I ++ '.' :: ((ds ++ [d]) ++ Z)) = I ++ '.' :: (ds ++ [d]) := by
  unfold pyStrip
  have h1 : I ++ '.' :: ((ds ++ [d]) ++ Z) = ((I ++ '.' :: ds) ++ [d]) ++ Z := by simp
  have h2 : I ++ '.' :: (ds ++ [d]) = (I ++ '.' :: ds) ++ [d] := by simp
  rw [h1, h2, dropTrailing_append_all _ _ _ hZ,
    dropTrailing_last_ne _ _ _ hd0, dropTrailing_last_ne _ _ _ hddot]

lemma div_pow_cancel (a : ℚ) (m k : ℕ) : a * 10 ^ k / 10 ^ (m + k) = a / 10 ^ m := by
  have h : ((10 : ℚ)) ^ k ≠ 0 := by positivity
  have h2 : ((10 : ℚ)) ^ m ≠ 0 := by positivity
  rw [pow_add]
  field_simp
  ring

lemma cast_mul_pow_div (dv m k : ℕ) :
    ((dv * 10 ^ k : ℕ) : ℚ) / 10 ^ (m + k) = (dv : ℚ) / 10 ^ m := by
  push_cast
  exact div_pow_cancel _ _ _

lemma strip_preserves (I F : List Char)
    (hIdigit : ∀ c ∈ I, c ∈ digitList) (hFdigit : ∀ c ∈ F, c ∈ digitList) :
    valueOf (pyStrip (I ++ '.' :: F)) = valueOf (I ++ '.' :: F) := by
  have hIdot : ∀ c ∈ I, (c == '.') = false := fun c hc => digit_ne_dot (hIdigit c hc)
  have hIbne : ∀ c ∈ I, (c != '.') = true := fun c hc => digit_bne_dot (hIdigit c hc)
  rcases hD : F.reverse.dropWhile (fun x => x == '0') with _ | ⟨d, ds⟩
  · have hsplit : F.reverse.takeWhile (fun x => x == '0') ++
        F.reverse.dropWhile (fun x => x == '0') = F.reverse :=
      List.takeWhile_append_dropWhile (fun x => x == '0') F.reverse
    rw [hD, List.append_nil] at hsplit
    have hFz : ∀ c ∈ F, c = '0' := by
      intro c hc
      have hcrev : c ∈ F.reverse := List.mem_reverse.2 hc
      rw [← hsplit] at hcrev
      simpa [beq_iff_eq] using mem_takeWhile hcrev
    rw [pyStrip_all_zero I F hIdot hFz, valueOf_with_dot I F hIbne, valueOf_no_dot I hIbne]
    have hzero : digitsVal F = 0 := by
      have := digitsVal_append_zeros F hFz []
      simpa [digitsVal] using this
    rw [hzero]
    simp
  · have hsplit : F.reverse.takeWhile (fun x => x == '0') ++
        F.reverse.dropWhile (fun x => x == '0') = F.reverse :=
      List.takeWhile_append_dropWhile (fun x => x == '0') F.reverse
    rw [hD] at hsplit
    have hF : F = (ds.reverse ++ [d]) ++
        (F.reverse.takeWhile (fun x => x == '0')).reverse := by
      have hrev := congrArg List.reverse hsplit
      rw [List.reverse_reverse, List.reverse_append, List.reverse_cons] at hrev
      exact hrev.symm
    have hTz : ∀ c ∈ (F.reverse.takeWhile (fun x => x == '0')).reverse, c = '0' := by
      intro c hc
      simpa [beq_iff_eq] using mem_takeWhile (List.mem_reverse.1 hc)
    have hd0 : (d == '0') = false := by
      have hw : F.reverse.dropWhile (fun x => x == '0') ≠ [] := by rw [hD]; simp
      have := List.head_dropWhile_not (fun x => x == '0') F.reverse hw
      simpa [hD] using this
    have hdmem : d ∈ F := by
      have : d ∈ F.reverse := by
        rw [← hsplit]
        simp
      exact List.mem_reverse.1 this
    have hddot : (d == '.') = false := digit_ne_dot (hFdigit d hdmem)
    rw [hF, pyStrip_tail_digit I ds.reverse d _ hTz hd0 hddot]
    rw [valueOf_with_dot I _ hIbne, valueOf_with_dot I _ hIbne,
      digitsVal_append_zeros _ hTz (ds.reverse ++ [d])]
    congr 1
    rw [List.length_append (ds.reverse ++ [d])]
    exact (cast_mul_pow_div _ _ _).symm

lemma pyRound_natCast (n : ℕ) : pyRound ((n : ℕ) : ℚ) = n := by
  unfold pyRound
  rw [Int.floor_natCast]
  push_cast
  norm_num

/-- C8: format-and-strip never changes the denoted value (stripping removes
only trailing fractional zeros and a then-dangling decimal point, never a
significant digit), and on the spec's examples: `100 → "100"`,
`42.500000 → "42.5"`, `0.000000 → "0"`. -/
theorem c8_percent_formatting :
    (∀ n prec : ℕ, valueOf (pyStrip (fixedChars n prec)) = valueOf (fixedChars n prec)) ∧
    formatPercent 100 6 = "100" ∧
    formatPercent (85 / 2) 6 = "42.5" ∧
    formatPercent 0 6 = "0" := by
  refine ⟨?_, ?_, ?_, ?_⟩
  · intro n prec
    unfold fixedChars
    exact strip_preserves _ _ (fun c hc => mem_natToChars_digit hc)
      (fun c hc => mem_fracPad_digit hc)
  · have h1 : ((100 : ℚ) * 10 ^ 6) = ((100000000 : ℕ) : ℚ) := by norm_num
    unfold formatPercent pyFormatChars
    rw [h1, pyRound_natCast]
    decide
  · have h1 : ((85 / 2 : ℚ) * 10 ^ 6) = ((42500000 : ℕ) : ℚ) := by norm_num
    unfold formatPercent pyFormatChars
    rw [h1, pyRound_natCast]
    decide
  · have h1 : ((0 : ℚ) * 10 ^ 6) = ((0 : ℕ) : ℚ) := by norm_num
    unfold formatPercent pyFormatChars
    rw [h1, pyRound_natCast]
    decide

end Bot
